import Mathlib

/-!
Shallow embedding of `src/lib/object-cache.ts` (class `ObjectCache`):
a read-through, time-expiring object cache.

Modelling decisions:
* Cached objects (`ioBroker.Object`) are opaque values with a string `_id`
  field plus an opaque payload (`val`). `extend({}, obj)` is a shallow clone,
  modelled as allocating a fresh heap cell holding the same value.
* Object identity / aliasing is modelled with an explicit `Heap`: references
  are indices into a list of objects; mutation is `Heap.set`.
* `Map<string, ioBroker.Object>` is an insertion-ordered association list
  from ids to heap references, with JS `Map` set/delete semantics.
* `SortedList<ExpireTimestamp>` is a list kept sorted by ascending timestamp
  (stable insertion after equal timestamps); `shift` pops the head,
  `remove` removes the found element.
* Time is `Int` (JS millisecond timestamps; deltas can be negative).
* The timer handle `expireTimer : NodeJS.Timer` is `Option Int`, recording
  the delay the pending timeout was armed with (`none` = no timer).
* The backing store `_.adapter.$getForeignObject` is a function
  `String → Except String (Option Obj)`: `.error` models a rejected
  promise, `.ok none` models absence (`null`/`undefined`).
* `async` methods are state transformers; `getObject` also reports how many
  backing-store queries the call performed.
-/

namespace ObjectCache

/-- An `ioBroker.Object`: a stable string identifier plus opaque payload. -/
structure Obj where
  _id : String
  val : Int
deriving DecidableEq, Repr

/-- Explicit heap of objects; a reference is an index into `data`. -/
structure Heap where
  data : List Obj
deriving DecidableEq, Repr

def Heap.size (h : Heap) : Nat := h.data.length

/-- Allocate a fresh object holding value `o`; returns the new heap and the
fresh reference. Models `extend({}, obj)` (shallow clone). -/
def Heap.alloc (h : Heap) (o : Obj) : Heap × Nat :=
  (⟨h.data ++ [o]⟩, h.data.length)

/-- Dereference. -/
def Heap.get (h : Heap) (r : Nat) : Option Obj := h.data[r]?

/-- Mutate the object behind reference `r` (a caller writing to its copy). -/
def Heap.set (h : Heap) (r : Nat) (o : Obj) : Heap := ⟨h.data.set r o⟩

/-- An entry of the `SortedList<ExpireTimestamp>`. -/
structure ExpireTimestamp where
  timestamp : Int
  id : String
deriving DecidableEq, Repr

/-! `Map<string, ioBroker.Object>` as insertion-ordered assoc list of
(id, reference) pairs, with JS `Map` semantics. -/

def mapHas : List (String × Nat) → String → Bool
  | [], _ => false
  | p :: m, k => p.1 == k || mapHas m k

def mapGet : List (String × Nat) → String → Option Nat
  | [], _ => none
  | p :: m, k => if p.1 == k then some p.2 else mapGet m k

/-- `Map.set`: replace in place if the key exists, else append. -/
def mapSet : List (String × Nat) → String → Nat → List (String × Nat)
  | [], k, v => [(k, v)]
  | p :: m, k, v => if p.1 == k then (k, v) :: m else p :: mapSet m k v

/-- `Map.delete`: remove the record for the key, no-op when absent. -/
def mapDelete : List (String × Nat) → String → List (String × Nat)
  | [], _ => []
  | p :: m, k => if p.1 == k then mapDelete m k else p :: mapDelete m k

/-! `SortedList` operations. -/

/-- `SortedList.add`: insert keeping ascending timestamp order, stably after
existing entries with an equal timestamp. -/
def slAdd (e : ExpireTimestamp) : List ExpireTimestamp → List ExpireTimestamp
  | [] => [e]
  | x :: xs =>
    if x.timestamp ≤ e.timestamp then x :: slAdd e xs else e :: x :: xs

/-- `[...list].find(ets => ets.id === id)` followed by `list.remove(found)`:
removes the first entry with the given id, no-op when absent. -/
def slRemoveFirstById (id : String) :
    List ExpireTimestamp → List ExpireTimestamp
  | [] => []
  | x :: xs => if x.id == id then xs else x :: slRemoveFirstById id xs

/-- The instance state of `ObjectCache`. `expiryDuration = none` models the
`false` sentinel (expiry disabled). -/
structure CacheState where
  expiryDuration : Option Int
  cache : List (String × Nat)
  expireTimestamps : List ExpireTimestamp
  expireTimer : Option Int
deriving DecidableEq, Repr

/-- `new ObjectCache(expiryDuration)`. -/
def mkCache (dur : Option Int) : CacheState :=
  { expiryDuration := dur, cache := [], expireTimestamps := [],
    expireTimer := none }

/-- `rememberForExpiry(id)`. -/
def rememberForExpiry (now : Int) (s : CacheState) (id : String) :
    CacheState :=
  match s.expiryDuration with
  | none => s
  | some dur =>
    let ts := slRemoveFirstById id s.expireTimestamps
    let newTimestamp : ExpireTimestamp := ⟨now + dur, id⟩
    let ts' := slAdd newTimestamp ts
    let timer := match s.expireTimer with
      | none => some dur
      | some t => some t
    { s with expireTimestamps := ts', expireTimer := timer }

/-- `storeObject(obj)`: clone the value into the cache under the clone's
`_id`, then remember it for expiry. -/
def storeObject (now : Int) (s : CacheState) (h : Heap) (obj : Obj) :
    CacheState × Heap :=
  (rememberForExpiry now
     { s with cache := mapSet s.cache obj._id (h.alloc obj).2 } obj._id,
   (h.alloc obj).1)

/-- `retrieveObject(id)`: if cached, return a fresh clone of the cached
object (allocating it); otherwise return `undefined` (`none`). -/
def retrieveObject (s : CacheState) (h : Heap) (id : String) :
    Heap × Option Nat :=
  match mapGet s.cache id with
  | some r =>
    match h.get r with
    | some v => ((h.alloc v).1, some (h.alloc v).2)
    | none => (h, none)
  | none => (h, none)

/-- `invalidateObject(id)`. -/
def invalidateObject (s : CacheState) (id : String) : CacheState :=
  { s with cache := mapDelete s.cache id }

/-- `updateObject(obj)`: the caller hands the cache a reference to its own
object; the cache stores a clone of its current value. -/
def updateObject (now : Int) (s : CacheState) (h : Heap) (r : Nat) :
    CacheState × Heap :=
  match h.get r with
  | some v => storeObject now s h v
  | none => (s, h)

/-- `setTimerForNextExpiry()`: peek via the shift-then-add workaround and arm
a timer for `max(timeDelta, 100)`. -/
def setTimerForNextExpiry (now : Int) (s : CacheState) : CacheState :=
  match s.expireTimestamps with
  | [] => s
  | next :: rest =>
    let ts' := slAdd next rest
    let timeDelta := next.timestamp - now
    { s with expireTimestamps := ts',
             expireTimer := some (max timeDelta 100) }

/-- `expire()`: the timer callback. Clears the timer handle; if the index is
empty, returns; otherwise shifts the earliest record, evicts it when due
(without re-adding) or re-adds it unchanged, then re-arms. -/
def expire (now : Int) (s : CacheState) : CacheState :=
  match s.expireTimestamps with
  | [] => { s with expireTimer := none }
  | next :: rest =>
    let s1 :=
      if next.timestamp - now ≤ 0 then
        { invalidateObject { s with expireTimer := none } next.id with
            expireTimestamps := rest }
      else
        { s with expireTimer := none, expireTimestamps := slAdd next rest }
    setTimerForNextExpiry now s1

/-- `dispose()`. -/
def dispose (s : CacheState) : CacheState :=
  { s with expireTimer := none, cache := [] }

/-- Result of a `getObject` call: the resolved value (a reference to a fresh
copy, or absence) or a propagated rejection; the instance state and heap
after the call; and how many backing-store queries the call made. -/
structure GetResult where
  result : Except String (Option Nat)
  state : CacheState
  heap : Heap
  queries : Nat
deriving Repr

/-- `getObject(id)`. -/
def getObject (db : String → Except String (Option Obj)) (now : Int)
    (s : CacheState) (h : Heap) (id : String) : GetResult :=
  if mapHas s.cache id then
    ⟨.ok (retrieveObject s h id).2, s, (retrieveObject s h id).1, 0⟩
  else
    match db id with
    | .error e => ⟨.error e, s, h, 1⟩
    | .ok ret =>
      let sh : CacheState × Heap :=
        match ret with
        | some o => storeObject now s h o
        | none => (s, h)
      ⟨.ok (retrieveObject sh.1 sh.2 id).2, sh.1,
        (retrieveObject sh.1 sh.2 id).1, 1⟩

/-- The value a caller observes from an option-of-reference result. -/
def readResult (h : Heap) (r : Option Nat) : Option Obj := r.bind h.get

/-- The value a `retrieveObject` caller receives for `id`. -/
def retrievedValue (s : CacheState) (h : Heap) (id : String) : Option Obj :=
  readResult (retrieveObject s h id).1 (retrieveObject s h id).2

/-- Well-formedness: every reference held by the Entry Store is allocated. -/
def WF (s : CacheState) (h : Heap) : Prop :=
  ∀ p ∈ s.cache, p.2 < h.size

/-- The Expiry Index is sorted by ascending timestamp (the `SortedList`
representation invariant). -/
def SortedTs (l : List ExpireTimestamp) : Prop :=
  l.Pairwise (fun a b => a.timestamp ≤ b.timestamp)

/-- Smallest timestamp in the index. -/
def minTimestamp : List ExpireTimestamp → Option Int
  | [] => none
  | e :: rest =>
    match minTimestamp rest with
    | none => some e.timestamp
    | some m => some (min e.timestamp m)

/-- At most one Expiry Index record per identifier. -/
def NodupIds (l : List ExpireTimestamp) : Prop :=
  (l.map (fun e => e.id)).Nodup

/-- At most one Entry Store record per identifier. -/
def NodupKeys (m : List (String × Nat)) : Prop :=
  (m.map (fun p => p.1)).Nodup

/-- Number of Expiry Index records carrying identifier `id`. -/
def countId (l : List ExpireTimestamp) (id : String) : Nat :=
  (l.filter (fun e => e.id == id)).length

/-- States reachable by public operations and timer fires. When
`allowDispose = false`, sequences containing `dispose` are excluded. -/
inductive Reach (dur : Option Int) (allowDispose : Bool) : CacheState → Prop
  | init : Reach dur allowDispose (mkCache dur)
  | get : ∀ s db now h id, Reach dur allowDispose s →
      Reach dur allowDispose (getObject db now s h id).state
  | update : ∀ s now h r, Reach dur allowDispose s →
      Reach dur allowDispose (updateObject now s h r).1
  | invalidate : ∀ s id, Reach dur allowDispose s →
      Reach dur allowDispose (invalidateObject s id)
  | fire : ∀ s now, Reach dur allowDispose s → s.expireTimer.isSome →
      Reach dur allowDispose (expire now s)
  | dispose : ∀ s, Reach dur allowDispose s → allowDispose = true →
      Reach dur allowDispose (ObjectCache.dispose s)

/-! Basic lemmas about the map model. -/

theorem mapHas_eq_isSome (m : List (String × Nat)) (k : String) :
    mapHas m k = (mapGet m k).isSome := by
  induction m with
  | nil => rfl
  | cons p m ih =>
    by_cases hp : p.1 = k
    · simp [mapHas, mapGet, hp]
    · simp [mapHas, mapGet, hp, ih]

theorem mapGet_mapDelete_self (m : List (String × Nat)) (k : String) :
    mapGet (mapDelete m k) k = none := by
  induction m with
  | nil => rfl
  | cons p m ih =>
    by_cases hp : p.1 = k
    · simpa [mapDelete, hp] using ih
    · simpa [mapDelete, mapGet, hp] using ih

theorem mapGet_mapDelete_ne (m : List (String × Nat)) (k k' : String)
    (h : k' ≠ k) : mapGet (mapDelete m k) k' = mapGet m k' := by
  induction m with
  | nil => rfl
  | cons p m ih =>
    by_cases hp : p.1 = k
    · simpa [mapDelete, mapGet, hp, h.symm] using ih
    · by_cases hpk : p.1 = k'
      · simp [mapDelete, mapGet, hp, hpk, h]
      · simpa [mapDelete, mapGet, hp, hpk] using ih

theorem mapDelete_of_absent (m : List (String × Nat)) (k : String)
    (h : mapGet m k = none) : mapDelete m k = m := by
  induction m with
  | nil => rfl
  | cons p m ih =>
    by_cases hp : p.1 = k
    · simp [mapGet, hp] at h
    · simp only [mapGet, hp, if_neg, beq_iff_eq, if_false] at h
      simp [mapDelete, hp, ih h]

theorem mapGet_mapSet_self (m : List (String × Nat)) (k : String) (v : Nat) :
    mapGet (mapSet m k v) k = some v := by
  induction m with
  | nil => simp [mapSet, mapGet]
  | cons p m ih =>
    by_cases hp : p.1 = k
    · simp [mapSet, mapGet, hp]
    · simpa [mapSet, mapGet, hp] using ih

theorem mapGet_mapSet_ne (m : List (String × Nat)) (k k' : String) (v : Nat)
    (h : k' ≠ k) : mapGet (mapSet m k v) k' = mapGet m k' := by
  induction m with
  | nil => simp [mapSet, mapGet, h.symm]
  | cons p m ih =>
    by_cases hp : p.1 = k
    · simp [mapSet, mapGet, hp, h.symm]
    · by_cases hpk : p.1 = k'
      · simp [mapSet, mapGet, hp, hpk, h]
      · simpa [mapSet, mapGet, hp, hpk] using ih

/-! Lemmas about the sorted Expiry Index. -/

theorem slAdd_perm (e : ExpireTimestamp) (l : List ExpireTimestamp) :
    (slAdd e l).Perm (e :: l) := by
  induction l with
  | nil => exact List.Perm.refl _
  | cons x xs ih =>
    by_cases hx : x.timestamp ≤ e.timestamp
    · simp only [slAdd, if_pos hx]
      exact (ih.cons x).trans (List.Perm.swap e x xs)
    · simp only [slAdd, if_neg hx]
      exact List.Perm.refl _

theorem slAdd_ne_nil (e : ExpireTimestamp) (l : List ExpireTimestamp) :
    slAdd e l ≠ [] := by
  intro h
  have := (slAdd_perm e l).length_eq
  rw [h] at this
  simp at this

theorem slAdd_sorted (e : ExpireTimestamp) (l : List ExpireTimestamp)
    (hs : SortedTs l) : SortedTs (slAdd e l) := by
  induction l with
  | nil => simp [slAdd, SortedTs]
  | cons x xs ih =>
    simp only [SortedTs, List.pairwise_cons] at hs
    by_cases hx : x.timestamp ≤ e.timestamp
    · simp only [slAdd, if_pos hx, SortedTs, List.pairwise_cons]
      refine ⟨?_, ih hs.2⟩
      intro y hy
      rcases List.mem_cons.mp ((slAdd_perm e xs).mem_iff.mp hy) with h1 | h2
      · rw [h1]; exact hx
      · exact hs.1 y h2
    · simp only [slAdd, if_neg hx, SortedTs, List.pairwise_cons]
      refine ⟨?_, hs.1, hs.2⟩
      intro y hy
      rcases List.mem_cons.mp hy with h1 | h2
      · rw [h1]; exact le_of_lt (not_le.mp hx)
      · exact le_trans (le_of_lt (not_le.mp hx)) (hs.1 y h2)

theorem sorted_head_le (e : ExpireTimestamp) (l : List ExpireTimestamp)
    (hs : SortedTs (e :: l)) : ∀ x ∈ e :: l, e.timestamp ≤ x.timestamp := by
  intro x hx
  rcases List.mem_cons.mp hx with h1 | h2
  · rw [h1]
  · exact (List.pairwise_cons.mp hs).1 x h2

theorem sorted_tail (e : ExpireTimestamp) (l : List ExpireTimestamp)
    (hs : SortedTs (e :: l)) : SortedTs l :=
  (List.pairwise_cons.mp hs).2

theorem minTimestamp_le (l : List ExpireTimestamp) (c : Int)
    (hc : ∀ x ∈ l, c ≤ x.timestamp) :
    ∀ m, minTimestamp l = some m → c ≤ m := by
  induction l with
  | nil => intro m hm; simp [minTimestamp] at hm
  | cons x xs ih =>
    intro m hm
    simp only [minTimestamp] at hm
    cases hxs : minTimestamp xs with
    | none =>
      rw [hxs] at hm
      injection hm with hm'
      rw [← hm']
      exact hc x (by simp)
    | some m' =>
      rw [hxs] at hm
      injection hm with hm'
      rw [← hm']
      exact le_min (hc x (by simp))
        (ih (fun y hy => hc y (List.mem_cons_of_mem x hy)) m' hxs)

theorem minTimestamp_sorted_head (e : ExpireTimestamp)
    (l : List ExpireTimestamp) (hs : SortedTs (e :: l)) :
    minTimestamp (e :: l) = some e.timestamp := by
  simp only [minTimestamp]
  cases hl : minTimestamp l with
  | none => rfl
  | some m =>
    have hle : e.timestamp ≤ m :=
      minTimestamp_le l e.timestamp (List.pairwise_cons.mp hs).1 m hl
    simp [min_eq_left hle]

theorem minTimestamp_perm {l l' : List ExpireTimestamp} (h : l.Perm l') :
    minTimestamp l = minTimestamp l' := by
  induction h with
  | nil => rfl
  | cons x _ ih => simp only [minTimestamp, ih]
  | swap x y l =>
    simp only [minTimestamp]
    cases minTimestamp l with
    | none => simp [min_comm]
    | some m => simp [min_left_comm]
  | trans _ _ ih1 ih2 => rw [ih1, ih2]

/-- Behavior of `setTimerForNextExpiry`: only the index order (among equal
timestamps) and the timer change; the timer is armed for
`max(earliest - now, 100)` when the index is non-empty. -/
theorem setTimer_spec (now : Int) (s : CacheState)
    (hs : SortedTs s.expireTimestamps) :
    (setTimerForNextExpiry now s).cache = s.cache ∧
    (setTimerForNextExpiry now s).expiryDuration = s.expiryDuration ∧
    (setTimerForNextExpiry now s).expireTimestamps.Perm
      s.expireTimestamps ∧
    SortedTs (setTimerForNextExpiry now s).expireTimestamps ∧
    (s.expireTimestamps = [] → setTimerForNextExpiry now s = s) ∧
    (∀ m, minTimestamp s.expireTimestamps = some m →
      (setTimerForNextExpiry now s).expireTimer =
        some (max (m - now) 100)) := by
  cases hts : s.expireTimestamps with
  | nil =>
    have he : setTimerForNextExpiry now s = s := by
      unfold setTimerForNextExpiry
      rw [hts]
    rw [he]
    refine ⟨rfl, rfl, ?_, hs, fun _ => rfl, ?_⟩
    · rw [hts]
    · intro m hm
      simp [minTimestamp] at hm
  | cons next rest =>
    have he : setTimerForNextExpiry now s =
        { s with expireTimestamps := slAdd next rest,
                 expireTimer := some (max (next.timestamp - now) 100) } := by
      unfold setTimerForNextExpiry
      rw [hts]
    rw [he]
    refine ⟨rfl, rfl, ?_, ?_, ?_, ?_⟩
    · exact slAdd_perm next rest
    · exact slAdd_sorted next rest (sorted_tail next rest (hts ▸ hs))
    · intro hnil
      simp at hnil
    · intro m hm
      rw [minTimestamp_sorted_head next rest (hts ▸ hs)] at hm
      injection hm with hm'
      show some (max (next.timestamp - now) 100) = some (max (m - now) 100)
      rw [hm']

/-! Claim theorems C7–C10. -/

/-- Claim C10: a cache hit leaves the entire cache state unchanged and makes
no backing-store query, so reads never extend an entry's TTL. -/
theorem getObject_hit_frame (db : String → Except String (Option Obj))
    (now : Int) (s : CacheState) (h : Heap) (id : String)
    (hhit : mapHas s.cache id = true) :
    (getObject db now s h id).state = s ∧
    (getObject db now s h id).queries = 0 := by
  unfold getObject
  rw [if_pos hhit]
  exact ⟨rfl, rfl⟩

/-- Witness for `getObject_hit_frame` at a concrete hit. -/
theorem getObject_hit_frame_witness :
    mapHas [("a", 0)] "a" = true ∧
    ((getObject (fun _ => Except.ok none) 0
        ⟨some 1000, [("a", 0)], [⟨1000, "a"⟩], some 1000⟩ ⟨[⟨"a", 7⟩]⟩
        "a").state = ⟨some 1000, [("a", 0)], [⟨1000, "a"⟩], some 1000⟩ ∧
      (getObject (fun _ => Except.ok none) 0
        ⟨some 1000, [("a", 0)], [⟨1000, "a"⟩], some 1000⟩ ⟨[⟨"a", 7⟩]⟩
        "a").queries = 0) :=
  ⟨by decide,
   getObject_hit_frame (fun _ => Except.ok none) 0
     ⟨some 1000, [("a", 0)], [⟨1000, "a"⟩], some 1000⟩ ⟨[⟨"a", 7⟩]⟩ "a"
     (by decide)⟩

/-- Claim C8: when the id is not cached and the backing store fails, the
failure is propagated unchanged, exactly one query was made, and the whole
cache state (and heap) is exactly as before. -/
theorem getObject_failure_atomic (db : String → Except String (Option Obj))
    (now : Int) (s : CacheState) (h : Heap) (id : String) (e : String)
    (hmiss : mapHas s.cache id = false) (herr : db id = Except.error e) :
    getObject db now s h id = ⟨Except.error e, s, h, 1⟩ := by
  unfold getObject
  rw [if_neg (by simp [hmiss]), herr]

/-- Witness for `getObject_failure_atomic` at a concrete failing store. -/
theorem getObject_failure_atomic_witness :
    mapHas ([] : List (String × Nat)) "a" = false ∧
    (fun (_ : String) => (Except.error "boom" : Except String (Option Obj)))
        "a" = Except.error "boom" ∧
    getObject (fun _ => Except.error "boom") 0 (mkCache (some 1000)) ⟨[]⟩
        "a" = ⟨Except.error "boom", mkCache (some 1000), ⟨[]⟩, 1⟩ :=
  ⟨by decide, rfl,
   getObject_failure_atomic (fun _ => Except.error "boom") 0
     (mkCache (some 1000)) ⟨[]⟩ "a" "boom" (by decide) rfl⟩

/-- Claim C7: `invalidateObject` removes the id from the Entry Store only:
the Expiry Index, timer and expiry duration are untouched, every other
Entry Store record is untouched, and invalidating an absent id is a no-op. -/
theorem invalidateObject_frame (s : CacheState) (id : String) :
    (invalidateObject s id).expireTimestamps = s.expireTimestamps ∧
    (invalidateObject s id).expireTimer = s.expireTimer ∧
    (invalidateObject s id).expiryDuration = s.expiryDuration ∧
    mapGet (invalidateObject s id).cache id = none ∧
    (∀ id', id' ≠ id →
      mapGet (invalidateObject s id).cache id' = mapGet s.cache id') ∧
    (mapGet s.cache id = none → invalidateObject s id = s) := by
  refine ⟨rfl, rfl, rfl, mapGet_mapDelete_self s.cache id, ?_, ?_⟩
  · intro id' hne
    exact mapGet_mapDelete_ne s.cache id id' hne
  · intro habs
    unfold invalidateObject
    rw [mapDelete_of_absent s.cache id habs]

/-- Witness for `invalidateObject_frame` at a concrete state. -/
theorem invalidateObject_frame_witness :
    ((invalidateObject ⟨some 5, [("a", 0), ("b", 1)], [⟨9, "a"⟩], some 5⟩
        "a").expireTimestamps = [⟨9, "a"⟩] ∧
      (invalidateObject ⟨some 5, [("a", 0), ("b", 1)], [⟨9, "a"⟩], some 5⟩
        "a").expireTimer = some 5 ∧
      (invalidateObject ⟨some 5, [("a", 0), ("b", 1)], [⟨9, "a"⟩], some 5⟩
        "a").expiryDuration = some 5 ∧
      mapGet (invalidateObject
        ⟨some 5, [("a", 0), ("b", 1)], [⟨9, "a"⟩], some 5⟩ "a").cache
        "a" = none ∧
      (∀ id', id' ≠ "a" →
        mapGet (invalidateObject
          ⟨some 5, [("a", 0), ("b", 1)], [⟨9, "a"⟩], some 5⟩ "a").cache
          id' = mapGet [("a", 0), ("b", 1)] id') ∧
      (mapGet [("a", 0), ("b", 1)] "a" = none →
        invalidateObject ⟨some 5, [("a", 0), ("b", 1)], [⟨9, "a"⟩], some 5⟩
          "a" = ⟨some 5, [("a", 0), ("b", 1)], [⟨9, "a"⟩], some 5⟩)) :=
  invalidateObject_frame ⟨some 5, [("a", 0), ("b", 1)], [⟨9, "a"⟩], some 5⟩ "a"

/-! Heap lemmas. -/

theorem Heap.get_alloc_self (h : Heap) (o : Obj) :
    (h.alloc o).1.get (h.alloc o).2 = some o :=
  List.getElem?_concat_length h.data o

theorem Heap.get_alloc_of_lt (h : Heap) (o : Obj) (r : Nat)
    (hr : r < h.size) : (h.alloc o).1.get r = h.get r :=
  List.getElem?_append_left hr

theorem Heap.get_set_ne (h : Heap) (r r' : Nat) (o : Obj) (hne : r ≠ r') :
    (h.set r o).get r' = h.get r' :=
  List.getElem?_set_ne hne

/-! Reduction lemmas for `retrieveObject` and `rememberForExpiry`. -/

theorem retrieveObject_eq (s : CacheState) (h : Heap) (id : String)
    (r : Nat) (v : Obj) (hr : mapGet s.cache id = some r)
    (hv : h.get r = some v) :
    retrieveObject s h id = ((h.alloc v).1, some (h.alloc v).2) := by
  unfold retrieveObject
  simp only [hr, hv]

theorem retrieveObject_absent (s : CacheState) (h : Heap) (id : String)
    (hr : mapGet s.cache id = none) :
    retrieveObject s h id = (h, none) := by
  unfold retrieveObject
  simp only [hr]

theorem rememberForExpiry_cache (now : Int) (s : CacheState) (id : String) :
    (rememberForExpiry now s id).cache = s.cache := by
  unfold rememberForExpiry
  cases s.expiryDuration <;> rfl

theorem mem_slAdd_self (e : ExpireTimestamp) (l : List ExpireTimestamp) :
    e ∈ slAdd e l :=
  (slAdd_perm e l).mem_iff.mpr (List.mem_cons_self e l)

/-! Reduction lemmas for the `expire` branches. -/

theorem expire_eq_of_due (now : Int) (s : CacheState) (e : ExpireTimestamp)
    (rest : List ExpireTimestamp) (hidx : s.expireTimestamps = e :: rest)
    (hdue : e.timestamp - now ≤ 0) :
    expire now s = setTimerForNextExpiry now
      { s with cache := mapDelete s.cache e.id, expireTimer := none,
               expireTimestamps := rest } := by
  unfold expire
  rw [hidx]
  simp only [invalidateObject, if_pos hdue]

theorem expire_eq_of_not_due (now : Int) (s : CacheState)
    (e : ExpireTimestamp) (rest : List ExpireTimestamp)
    (hidx : s.expireTimestamps = e :: rest)
    (hdue : ¬ e.timestamp - now ≤ 0) :
    expire now s = setTimerForNextExpiry now
      { s with expireTimer := none,
               expireTimestamps := slAdd e rest } := by
  unfold expire
  rw [hidx]
  simp only [if_neg hdue]

/-- Claim C2: one expire step: clears the timer handle; stays idle on an
empty index; otherwise pops exactly the earliest record, evicting its id
without re-insertion when due and re-inserting it unchanged when not due;
finally re-arms for `max(earliest − now, 100)` iff the index is non-empty. -/
theorem expire_step_behavior (now : Int) (s : CacheState)
    (hs : SortedTs s.expireTimestamps) :
    (s.expireTimestamps = [] →
      expire now s = { s with expireTimer := none }) ∧
    (∀ e rest, s.expireTimestamps = e :: rest →
      (∀ x ∈ s.expireTimestamps, e.timestamp ≤ x.timestamp) ∧
      (e.timestamp ≤ now →
        (expire now s).cache = mapDelete s.cache e.id ∧
        (expire now s).expireTimestamps.Perm rest) ∧
      (now < e.timestamp →
        (expire now s).cache = s.cache ∧
        (expire now s).expireTimestamps.Perm s.expireTimestamps) ∧
      ((expire now s).expireTimestamps = [] →
        (expire now s).expireTimer = none) ∧
      (∀ m, minTimestamp (expire now s).expireTimestamps = some m →
        (expire now s).expireTimer = some (max (m - now) 100))) := by
  constructor
  · intro h
    unfold expire
    rw [h]
  · intro e rest hidx
    have hsrest : SortedTs rest := sorted_tail e rest (hidx ▸ hs)
    have hhead : ∀ x ∈ s.expireTimestamps, e.timestamp ≤ x.timestamp := by
      intro x hx
      exact sorted_head_le e rest (hidx ▸ hs) x (hidx ▸ hx)
    by_cases hdue : e.timestamp - now ≤ 0
    · have he := expire_eq_of_due now s e rest hidx hdue
      obtain ⟨hc, _, hperm, _, hnil, htm⟩ := setTimer_spec now
        { s with cache := mapDelete s.cache e.id, expireTimer := none,
                 expireTimestamps := rest } hsrest
      rw [he]
      refine ⟨hhead, fun _ => ⟨hc, hperm⟩,
        fun hlt => absurd hdue (by omega), ?_, ?_⟩
      · intro hemp
        have hlen := hperm.length_eq
        rw [hemp] at hlen
        simp only [List.length_nil] at hlen
        have hrnil : rest = [] := List.length_eq_zero.mp hlen.symm
        rw [hnil hrnil]
      · intro m hm
        rw [minTimestamp_perm hperm] at hm
        exact htm m hm
    · have he := expire_eq_of_not_due now s e rest hidx hdue
      have hsadd : SortedTs (slAdd e rest) := slAdd_sorted e rest hsrest
      obtain ⟨hc, _, hperm, _, hnil, htm⟩ := setTimer_spec now
        { s with expireTimer := none,
                 expireTimestamps := slAdd e rest } hsadd
      have hps : (e :: rest).Perm s.expireTimestamps := by rw [hidx]
      rw [he]
      refine ⟨hhead, fun hle => absurd hle (by omega),
        fun _ => ⟨hc, hperm.trans ((slAdd_perm e rest).trans hps)⟩, ?_, ?_⟩
      · intro hemp
        have hlen := hperm.length_eq
        rw [hemp] at hlen
        simp only [List.length_nil] at hlen
        have hrnil : slAdd e rest = [] := List.length_eq_zero.mp hlen.symm
        exact absurd hrnil (slAdd_ne_nil e rest)
      · intro m hm
        rw [minTimestamp_perm hperm] at hm
        exact htm m hm

/-- Witness for `expire_step_behavior` at a concrete sorted state. -/
theorem expire_step_behavior_witness :
    SortedTs ([⟨5, "a"⟩] : List ExpireTimestamp) ∧
    (([⟨5, "a"⟩] : List ExpireTimestamp) = [] →
      expire 10 ⟨some 50, [("a", 0)], [⟨5, "a"⟩], some 50⟩ =
        { (⟨some 50, [("a", 0)], [⟨5, "a"⟩], some 50⟩ : CacheState) with
            expireTimer := none }) ∧
    (∀ e rest, ([⟨5, "a"⟩] : List ExpireTimestamp) = e :: rest →
      (∀ x ∈ ([⟨5, "a"⟩] : List ExpireTimestamp),
        e.timestamp ≤ x.timestamp) ∧
      (e.timestamp ≤ 10 →
        (expire 10 ⟨some 50, [("a", 0)], [⟨5, "a"⟩], some 50⟩).cache =
          mapDelete [("a", 0)] e.id ∧
        (expire 10 ⟨some 50, [("a", 0)], [⟨5, "a"⟩],
          some 50⟩).expireTimestamps.Perm rest) ∧
      (10 < e.timestamp →
        (expire 10 ⟨some 50, [("a", 0)], [⟨5, "a"⟩], some 50⟩).cache =
          [("a", 0)] ∧
        (expire 10 ⟨some 50, [("a", 0)], [⟨5, "a"⟩],
          some 50⟩).expireTimestamps.Perm [⟨5, "a"⟩]) ∧
      ((expire 10 ⟨some 50, [("a", 0)], [⟨5, "a"⟩],
          some 50⟩).expireTimestamps = [] →
        (expire 10 ⟨some 50, [("a", 0)], [⟨5, "a"⟩],
          some 50⟩).expireTimer = none) ∧
      (∀ m, minTimestamp (expire 10 ⟨some 50, [("a", 0)], [⟨5, "a"⟩],
          some 50⟩).expireTimestamps = some m →
        (expire 10 ⟨some 50, [("a", 0)], [⟨5, "a"⟩],
          some 50⟩).expireTimer = some (max (m - 10) 100))) :=
  ⟨by simp [SortedTs],
   expire_step_behavior 10 ⟨some 50, [("a", 0)], [⟨5, "a"⟩], some 50⟩
     (by simp [SortedTs])⟩

/-- Counterexample to claim C6: at time 10 both records (timestamps 5 and 6)
are due, yet after a single fire the record for "b" is still in the Expiry
Index and "b" is still in the Entry Store — a fire does not evict every due
entry. -/
theorem expire_all_due_counterexample :
    SortedTs ([⟨5, "a"⟩, ⟨6, "b"⟩] : List ExpireTimestamp) ∧
    (⟨6, "b"⟩ : ExpireTimestamp).timestamp ≤ 10 ∧
    (⟨6, "b"⟩ : ExpireTimestamp) ∈
      (expire 10 ⟨some 1000, [("a", 0), ("b", 1)],
        [⟨5, "a"⟩, ⟨6, "b"⟩], some 1000⟩).expireTimestamps ∧
    mapGet (expire 10 ⟨some 1000, [("a", 0), ("b", 1)],
        [⟨5, "a"⟩, ⟨6, "b"⟩], some 1000⟩).cache "b" = some 1 := by
  refine ⟨by simp [SortedTs], by decide, by decide, by decide⟩

/-- Claim C6 as amended: on a timer fire only the earliest record is popped;
if due, exactly its identifier is evicted, while every other record — due or
not — survives the fire (to be handled by later fires), and other Entry
Store records are untouched; the scheduler then re-arms for the new
earliest entry, `max(earliest − now, 100)`, staying idle only when the
index has emptied. -/
theorem expire_pops_only_earliest (now : Int) (s : CacheState)
    (hs : SortedTs s.expireTimestamps) (e : ExpireTimestamp)
    (rest : List ExpireTimestamp) (hidx : s.expireTimestamps = e :: rest)
    (hdue : e.timestamp ≤ now) :
    (expire now s).expireTimestamps.Perm rest ∧
    (expire now s).cache = mapDelete s.cache e.id ∧
    (∀ x ∈ rest, x ∈ (expire now s).expireTimestamps) ∧
    (∀ id', id' ≠ e.id →
      mapGet (expire now s).cache id' = mapGet s.cache id') ∧
    ((expire now s).expireTimestamps = [] →
      (expire now s).expireTimer = none) ∧
    (∀ m, minTimestamp (expire now s).expireTimestamps = some m →
      (expire now s).expireTimer = some (max (m - now) 100)) := by
  have hsrest : SortedTs rest := sorted_tail e rest (hidx ▸ hs)
  have he := expire_eq_of_due now s e rest hidx (by omega)
  obtain ⟨hc, _, hperm, _, hnil, htm⟩ := setTimer_spec now
    { s with cache := mapDelete s.cache e.id, expireTimer := none,
             expireTimestamps := rest } hsrest
  rw [he]
  refine ⟨hperm, hc, ?_, ?_, ?_, ?_⟩
  · intro x hx
    exact hperm.mem_iff.mpr hx
  · intro id' hne
    rw [hc]
    exact mapGet_mapDelete_ne s.cache e.id id' hne
  · intro hemp
    have hlen := hperm.length_eq
    rw [hemp] at hlen
    simp only [List.length_nil] at hlen
    have hrnil : rest = [] := List.length_eq_zero.mp hlen.symm
    rw [hnil hrnil]
  · intro m hm
    rw [minTimestamp_perm hperm] at hm
    exact htm m hm

/-- Witness for `expire_pops_only_earliest` at a concrete state with a
second, also-due record. -/
theorem expire_pops_only_earliest_witness :
    SortedTs ([⟨5, "a"⟩, ⟨6, "b"⟩] : List ExpireTimestamp) ∧
    (⟨5, "a"⟩ : ExpireTimestamp).timestamp ≤ 10 ∧
    ((expire 10 ⟨some 1000, [("a", 0), ("b", 1)], [⟨5, "a"⟩, ⟨6, "b"⟩],
        some 1000⟩).expireTimestamps.Perm [⟨6, "b"⟩] ∧
      (expire 10 ⟨some 1000, [("a", 0), ("b", 1)], [⟨5, "a"⟩, ⟨6, "b"⟩],
        some 1000⟩).cache = mapDelete [("a", 0), ("b", 1)] "a" ∧
      (∀ x ∈ ([⟨6, "b"⟩] : List ExpireTimestamp),
        x ∈ (expire 10 ⟨some 1000, [("a", 0), ("b", 1)],
          [⟨5, "a"⟩, ⟨6, "b"⟩], some 1000⟩).expireTimestamps) ∧
      (∀ id', id' ≠ "a" →
        mapGet (expire 10 ⟨some 1000, [("a", 0), ("b", 1)],
          [⟨5, "a"⟩, ⟨6, "b"⟩], some 1000⟩).cache id' =
        mapGet [("a", 0), ("b", 1)] id') ∧
      ((expire 10 ⟨some 1000, [("a", 0), ("b", 1)], [⟨5, "a"⟩, ⟨6, "b"⟩],
          some 1000⟩).expireTimestamps = [] →
        (expire 10 ⟨some 1000, [("a", 0), ("b", 1)], [⟨5, "a"⟩, ⟨6, "b"⟩],
          some 1000⟩).expireTimer = none) ∧
      (∀ m, minTimestamp (expire 10 ⟨some 1000, [("a", 0), ("b", 1)],
          [⟨5, "a"⟩, ⟨6, "b"⟩], some 1000⟩).expireTimestamps = some m →
        (expire 10 ⟨some 1000, [("a", 0), ("b", 1)], [⟨5, "a"⟩, ⟨6, "b"⟩],
          some 1000⟩).expireTimer = some (max (m - 10) 100))) :=
  ⟨by simp [SortedTs], by decide,
   expire_pops_only_earliest 10
     ⟨some 1000, [("a", 0), ("b", 1)], [⟨5, "a"⟩, ⟨6, "b"⟩], some 1000⟩
     (by simp [SortedTs]) ⟨5, "a"⟩ [⟨6, "b"⟩] rfl (by decide)⟩

/-- Claim C1: read-through get. On a hit: no backing-store query, a fresh
copy of the cached value is returned, state unchanged. On a miss: exactly
one query; if the store yields a value, a copy is stored (Entry Store +
Expiry Index bookkeeping) before a fresh copy is returned; if it yields
absence, absence is returned, nothing is cached, and every subsequent get
for that id queries the backing store again. -/
theorem getObject_read_through (db : String → Except String (Option Obj))
    (now : Int) (s : CacheState) (h : Heap) (id : String) :
    (∀ r v, mapGet s.cache id = some r → h.get r = some v →
      (getObject db now s h id).queries = 0 ∧
      (getObject db now s h id).state = s ∧
      (getObject db now s h id).result = Except.ok (some h.size) ∧
      Heap.get (getObject db now s h id).heap h.size = some v) ∧
    (mapGet s.cache id = none →
      (getObject db now s h id).queries = 1 ∧
      (db id = Except.ok none →
        getObject db now s h id = ⟨Except.ok none, s, h, 1⟩ ∧
        ∀ db2 now2 h2,
          (getObject db2 now2 (getObject db now s h id).state h2
            id).queries = 1) ∧
      (∀ o, db id = Except.ok (some o) → o._id = id →
        (getObject db now s h id).result = Except.ok (some (h.size + 1)) ∧
        Heap.get (getObject db now s h id).heap (h.size + 1) = some o ∧
        mapGet (getObject db now s h id).state.cache id = some h.size ∧
        Heap.get (getObject db now s h id).heap h.size = some o ∧
        (∀ d, s.expiryDuration = some d →
          (⟨now + d, id⟩ : ExpireTimestamp) ∈
            (getObject db now s h id).state.expireTimestamps))) := by
  constructor
  · intro r v hr hv
    have hhas : mapHas s.cache id = true := by
      rw [mapHas_eq_isSome, hr]
      rfl
    have hg : getObject db now s h id =
        ⟨Except.ok (some (h.alloc v).2), s, (h.alloc v).1, 0⟩ := by
      unfold getObject
      rw [if_pos hhas, retrieveObject_eq s h id r v hr hv]
    rw [hg]
    exact ⟨rfl, rfl, rfl, Heap.get_alloc_self h v⟩
  · intro hmiss
    have hhas : mapHas s.cache id = false := by
      rw [mapHas_eq_isSome, hmiss]
      rfl
    have hnot : ¬ mapHas s.cache id = true := by
      rw [hhas]
      exact Bool.false_ne_true
    refine ⟨?_, ?_, ?_⟩
    · unfold getObject
      rw [if_neg hnot]
      cases db id with
      | error e => rfl
      | ok ret => rfl
    · intro hnone
      have hg : getObject db now s h id = ⟨Except.ok none, s, h, 1⟩ := by
        unfold getObject
        rw [if_neg hnot, hnone]
        simp only [retrieveObject_absent s h id hmiss]
      refine ⟨hg, ?_⟩
      intro db2 now2 h2
      rw [hg]
      unfold getObject
      rw [if_neg hnot]
      cases db2 id with
      | error e => rfl
      | ok ret => rfl
    · intro o hdbo hid
      have hg : getObject db now s h id =
          ⟨Except.ok (retrieveObject (storeObject now s h o).1
              (storeObject now s h o).2 id).2,
            (storeObject now s h o).1,
            (retrieveObject (storeObject now s h o).1
              (storeObject now s h o).2 id).1, 1⟩ := by
        unfold getObject
        rw [if_neg hnot, hdbo]
      have hcache : (storeObject now s h o).1.cache =
          mapSet s.cache id (h.alloc o).2 := by
        unfold storeObject
        rw [rememberForExpiry_cache, hid]
      have hget1 : mapGet (storeObject now s h o).1.cache id =
          some h.size := by
        rw [hcache]
        exact mapGet_mapSet_self s.cache id (h.alloc o).2
      have hgeto : Heap.get (storeObject now s h o).2 h.size = some o :=
        Heap.get_alloc_self h o
      have hro := retrieveObject_eq (storeObject now s h o).1
        (storeObject now s h o).2 id h.size o hget1 hgeto
      have hlen : ((storeObject now s h o).2.alloc o).2 = h.size + 1 := by
        show (h.data ++ [o]).length = h.data.length + 1
        simp
      rw [hg, hro]
      refine ⟨?_, ?_, hget1, ?_, ?_⟩
      · rw [hlen]
      · show Heap.get ((storeObject now s h o).2.alloc o).1
          (h.size + 1) = some o
        rw [← hlen]
        exact Heap.get_alloc_self (storeObject now s h o).2 o
      · show Heap.get ((storeObject now s h o).2.alloc o).1 h.size = some o
        rw [Heap.get_alloc_of_lt (storeObject now s h o).2 o h.size
          (by show h.data.length < (h.data ++ [o]).length; simp)]
        exact hgeto
      · intro d hd
        show (⟨now + d, id⟩ : ExpireTimestamp) ∈
          (rememberForExpiry now
            { s with cache := mapSet s.cache o._id (h.alloc o).2 }
            o._id).expireTimestamps
        unfold rememberForExpiry
        simp only [hd, hid]
        exact mem_slAdd_self _ _

theorem Heap.lt_size_of_get (h : Heap) (r : Nat) (v : Obj)
    (hv : h.get r = some v) : r < h.size := by
  obtain ⟨hlt, _⟩ := List.getElem?_eq_some_iff.mp hv
  exact hlt

theorem mapGet_mem (m : List (String × Nat)) (k : String) (r : Nat)
    (hr : mapGet m k = some r) : (k, r) ∈ m := by
  induction m with
  | nil => simp [mapGet] at hr
  | cons p m ih =>
    by_cases hp : p.1 = k
    · simp only [mapGet, hp, beq_self_eq_true, if_true] at hr
      injection hr with hr'
      rw [← hp, ← hr']
      exact List.mem_cons_self p m
    · have hb : (p.1 == k) = false := by simp [hp]
      simp only [mapGet, hb, Bool.false_eq_true, if_false] at hr
      exact List.mem_cons_of_mem p (ih hr)

theorem retrievedValue_eq (s : CacheState) (h : Heap) (id : String)
    (r : Nat) (v : Obj) (hr : mapGet s.cache id = some r)
    (hv : h.get r = some v) : retrievedValue s h id = some v := by
  unfold retrievedValue
  rw [retrieveObject_eq s h id r v hr hv]
  exact Heap.get_alloc_self h v

theorem storeObject_cache (now : Int) (s : CacheState) (h : Heap)
    (o : Obj) : (storeObject now s h o).1.cache =
      mapSet s.cache o._id (h.alloc o).2 := by
  unfold storeObject
  rw [rememberForExpiry_cache]

/-- Claim C3: copy isolation. Mutating the caller's object after handing it
to the cache does not change what a later read returns; mutating the copy a
`getObject` call returned does not change the cache state or what a later
read for the same id returns. -/
theorem copy_isolation (now : Int) (s : CacheState) (h : Heap)
    (hwf : WF s h) :
    (∀ r v w, Heap.get h r = some v →
      retrievedValue (updateObject now s h r).1
        (Heap.set (updateObject now s h r).2 r w) v._id = some v) ∧
    (∀ db now2 id rr w,
      (getObject db now2 s h id).result = Except.ok (some rr) →
      retrievedValue (getObject db now2 s h id).state
        (Heap.set (getObject db now2 s h id).heap rr w) id =
      readResult (getObject db now2 s h id).heap (some rr)) := by
  constructor
  · intro r v w hv
    have hrlt : r < h.size := Heap.lt_size_of_get h r v hv
    have hup : updateObject now s h r = storeObject now s h v := by
      unfold updateObject
      simp only [hv]
    rw [hup]
    have hget1 : mapGet (storeObject now s h v).1.cache v._id =
        some h.size := by
      rw [storeObject_cache]
      exact mapGet_mapSet_self s.cache v._id (h.alloc v).2
    refine retrievedValue_eq _ _ _ h.size v hget1 ?_
    have hset : Heap.get (Heap.set (storeObject now s h v).2 r w) h.size =
        Heap.get (storeObject now s h v).2 h.size :=
      Heap.get_set_ne _ r h.size w (Nat.ne_of_lt hrlt)
    rw [hset]
    exact Heap.get_alloc_self h v
  · intro db now2 id rr w hres
    by_cases hhas : mapHas s.cache id = true
    · have hsome : (mapGet s.cache id).isSome := by
        rw [← mapHas_eq_isSome, hhas]
      obtain ⟨r0, hr0⟩ := Option.isSome_iff_exists.mp hsome
      have hr0lt : r0 < h.size := hwf _ (mapGet_mem s.cache id r0 hr0)
      obtain ⟨v0, hv0⟩ : ∃ v0, Heap.get h r0 = some v0 := by
        cases hg0 : Heap.get h r0 with
        | some v0 => exact ⟨v0, rfl⟩
        | none =>
          unfold Heap.get at hg0
          rw [List.getElem?_eq_getElem hr0lt] at hg0
          cases hg0
      have hg : getObject db now2 s h id =
          ⟨Except.ok (some (h.alloc v0).2), s, (h.alloc v0).1, 0⟩ := by
        unfold getObject
        rw [if_pos hhas, retrieveObject_eq s h id r0 v0 hr0 hv0]
      rw [hg] at hres ⊢
      have hrr : (h.alloc v0).2 = rr := by
        injection hres with h1
        injection h1
      refine (retrievedValue_eq _ _ _ r0 v0 hr0 ?_).trans ?_
      · have hset : Heap.get (Heap.set (h.alloc v0).1 rr w) r0 =
            Heap.get (h.alloc v0).1 r0 :=
          Heap.get_set_ne _ rr r0 w (by rw [← hrr]; exact
            (Nat.ne_of_lt hr0lt).symm)
        rw [hset]
        rw [Heap.get_alloc_of_lt h v0 r0 hr0lt]
        exact hv0
      · show some v0 = readResult (h.alloc v0).1 (some rr)
        rw [← hrr]
        exact (Heap.get_alloc_self h v0).symm
    · have hmiss : mapGet s.cache id = none := by
        cases hg : mapGet s.cache id with
        | none => rfl
        | some r =>
          rw [mapHas_eq_isSome, hg] at hhas
          simp at hhas
      have hnot : ¬ mapHas s.cache id = true := hhas
      cases hdb : db id with
      | error e =>
        have hg : getObject db now2 s h id = ⟨Except.error e, s, h, 1⟩ := by
          unfold getObject
          rw [if_neg hnot, hdb]
        rw [hg] at hres
        simp at hres
      | ok ret =>
        cases ret with
        | none =>
          have hg : getObject db now2 s h id =
              ⟨Except.ok none, s, h, 1⟩ := by
            unfold getObject
            rw [if_neg hnot, hdb]
            simp only [retrieveObject_absent s h id hmiss]
          rw [hg] at hres
          simp at hres
        | some o =>
          by_cases hid : o._id = id
          · have hget1 : mapGet (storeObject now2 s h o).1.cache id =
                some h.size := by
              rw [storeObject_cache, hid]
              exact mapGet_mapSet_self s.cache id (h.alloc o).2
            have hgeto : Heap.get (storeObject now2 s h o).2 h.size =
                some o := Heap.get_alloc_self h o
            have hro := retrieveObject_eq (storeObject now2 s h o).1
              (storeObject now2 s h o).2 id h.size o hget1 hgeto
            have hg : getObject db now2 s h id =
                ⟨Except.ok (some (((storeObject now2 s h o).2).alloc o).2),
                  (storeObject now2 s h o).1,
                  (((storeObject now2 s h o).2).alloc o).1, 1⟩ := by
              unfold getObject
              rw [if_neg hnot, hdb]
              simp only [hro]
            rw [hg] at hres ⊢
            have hrr : (((storeObject now2 s h o).2).alloc o).2 = rr := by
              injection hres with h1
              injection h1
            have hrrval : (((storeObject now2 s h o).2).alloc o).2 =
                h.size + 1 := by
              show (h.data ++ [o]).length = h.data.length + 1
              simp
            refine (retrievedValue_eq _ _ _ h.size o hget1 ?_).trans ?_
            · have hset : Heap.get
                  (Heap.set (((storeObject now2 s h o).2).alloc o).1 rr w)
                  h.size =
                  Heap.get (((storeObject now2 s h o).2).alloc o).1
                    h.size :=
                Heap.get_set_ne _ rr h.size w
                  (by rw [← hrr, hrrval]; omega)
              rw [hset]
              rw [Heap.get_alloc_of_lt (storeObject now2 s h o).2 o h.size
                (by show h.data.length < (h.data ++ [o]).length; simp)]
              exact hgeto
            · show some o = readResult (((storeObject now2 s h o).2).alloc
                o).1 (some rr)
              rw [← hrr]
              exact (Heap.get_alloc_self (storeObject now2 s h o).2 o).symm
          · have hgetn : mapGet (storeObject now2 s h o).1.cache id =
                none := by
              rw [storeObject_cache]
              rw [mapGet_mapSet_ne s.cache o._id id (h.alloc o).2
                (fun hh => hid hh.symm)]
              exact hmiss
            have hg : getObject db now2 s h id =
                ⟨Except.ok none, (storeObject now2 s h o).1,
                  (storeObject now2 s h o).2, 1⟩ := by
              unfold getObject
              rw [if_neg hnot, hdb]
              simp only [retrieveObject_absent (storeObject now2 s h o).1
                (storeObject now2 s h o).2 id hgetn]
            rw [hg] at hres
            simp at hres

/-- Witness for `copy_isolation` at a concrete well-formed state. -/
theorem copy_isolation_witness :
    WF ⟨some 1000, [("a", 0)], [⟨1000, "a"⟩], some 1000⟩ ⟨[⟨"a", 7⟩]⟩ ∧
    ((∀ r v w, Heap.get ⟨[⟨"a", 7⟩]⟩ r = some v →
        retrievedValue (updateObject 0 ⟨some 1000, [("a", 0)],
            [⟨1000, "a"⟩], some 1000⟩ ⟨[⟨"a", 7⟩]⟩ r).1
          (Heap.set (updateObject 0 ⟨some 1000, [("a", 0)], [⟨1000, "a"⟩],
            some 1000⟩ ⟨[⟨"a", 7⟩]⟩ r).2 r w) v._id = some v) ∧
      (∀ db now2 id rr w,
        (getObject db now2 ⟨some 1000, [("a", 0)], [⟨1000, "a"⟩],
          some 1000⟩ ⟨[⟨"a", 7⟩]⟩ id).result = Except.ok (some rr) →
        retrievedValue (getObject db now2 ⟨some 1000, [("a", 0)],
            [⟨1000, "a"⟩], some 1000⟩ ⟨[⟨"a", 7⟩]⟩ id).state
          (Heap.set (getObject db now2 ⟨some 1000, [("a", 0)],
            [⟨1000, "a"⟩], some 1000⟩ ⟨[⟨"a", 7⟩]⟩ id).heap rr w) id =
        readResult (getObject db now2 ⟨some 1000, [("a", 0)],
          [⟨1000, "a"⟩], some 1000⟩ ⟨[⟨"a", 7⟩]⟩ id).heap (some rr))) :=
  ⟨by unfold WF Heap.size; decide, copy_isolation 0 ⟨some 1000,
    [("a", 0)], [⟨1000, "a"⟩], some 1000⟩ ⟨[⟨"a", 7⟩]⟩
    (by unfold WF Heap.size; decide)⟩

/-- Sample backing store for witnesses: knows "a", lacks everything else. -/
def sampleDb : String → Except String (Option Obj) :=
  fun i => if i = "a" then Except.ok (some ⟨"a", 1⟩) else Except.ok none

/-- Witness for `getObject_read_through` at a concrete backing store that
has "a" and lacks "x". -/
theorem getObject_read_through_witness :
    (mapGet (mkCache (some 1000)).cache "x" = none ∧
      sampleDb "x" = Except.ok none) ∧
    ((∀ r v, mapGet (mkCache (some 1000)).cache "x" = some r →
        Heap.get ⟨[]⟩ r = some v →
        (getObject sampleDb 0 (mkCache (some 1000)) ⟨[]⟩ "x").queries = 0 ∧
        (getObject sampleDb 0 (mkCache (some 1000)) ⟨[]⟩ "x").state =
          mkCache (some 1000) ∧
        (getObject sampleDb 0 (mkCache (some 1000)) ⟨[]⟩ "x").result =
          Except.ok (some (Heap.size ⟨[]⟩)) ∧
        Heap.get (getObject sampleDb 0 (mkCache (some 1000)) ⟨[]⟩
          "x").heap (Heap.size ⟨[]⟩) = some v) ∧
      (mapGet (mkCache (some 1000)).cache "x" = none →
        (getObject sampleDb 0 (mkCache (some 1000)) ⟨[]⟩ "x").queries = 1 ∧
        (sampleDb "x" = Except.ok none →
          getObject sampleDb 0 (mkCache (some 1000)) ⟨[]⟩ "x" =
            ⟨Except.ok none, mkCache (some 1000), ⟨[]⟩, 1⟩ ∧
          ∀ db2 now2 h2,
            (getObject db2 now2 (getObject sampleDb 0 (mkCache (some 1000))
              ⟨[]⟩ "x").state h2 "x").queries = 1) ∧
        (∀ o, sampleDb "x" = Except.ok (some o) → Obj._id o = "x" →
          (getObject sampleDb 0 (mkCache (some 1000)) ⟨[]⟩ "x").result =
            Except.ok (some (Heap.size ⟨[]⟩ + 1)) ∧
          Heap.get (getObject sampleDb 0 (mkCache (some 1000)) ⟨[]⟩
            "x").heap (Heap.size ⟨[]⟩ + 1) = some o ∧
          mapGet (getObject sampleDb 0 (mkCache (some 1000)) ⟨[]⟩
            "x").state.cache "x" = some (Heap.size ⟨[]⟩) ∧
          Heap.get (getObject sampleDb 0 (mkCache (some 1000)) ⟨[]⟩
            "x").heap (Heap.size ⟨[]⟩) = some o ∧
          (∀ d, (mkCache (some 1000)).expiryDuration = some d →
            (⟨0 + d, "x"⟩ : ExpireTimestamp) ∈
              (getObject sampleDb 0 (mkCache (some 1000)) ⟨[]⟩
                "x").state.expireTimestamps)))) :=
  ⟨⟨rfl, rfl⟩,
   getObject_read_through sampleDb 0 (mkCache (some 1000)) ⟨[]⟩ "x"⟩

/-- Claim C9: `dispose` cancels any pending timer and clears the Entry
Store; it leaves the Expiry Index and configuration alone, is total (safe
with no timer armed), and a second `dispose` is a no-op. -/
theorem dispose_spec (s : CacheState) :
    (dispose s).expireTimer = none ∧
    (dispose s).cache = [] ∧
    (dispose s).expireTimestamps = s.expireTimestamps ∧
    (dispose s).expiryDuration = s.expiryDuration ∧
    dispose (dispose s) = dispose s :=
  ⟨rfl, rfl, rfl, rfl, rfl⟩

/-! Machinery for the one-record-per-identifier invariant (C4). -/

theorem slRemoveFirstById_sublist (id : String)
    (l : List ExpireTimestamp) : (slRemoveFirstById id l).Sublist l := by
  induction l with
  | nil => exact List.Sublist.refl _
  | cons x xs ih =>
    by_cases hx : x.id = id
    · simp only [slRemoveFirstById, hx, beq_self_eq_true, if_true]
      exact List.sublist_cons_self x xs
    · have hb : (x.id == id) = false := by simp [hx]
      simp only [slRemoveFirstById, hb, Bool.false_eq_true, if_false]
      exact ih.cons₂ x

theorem nodupIds_slRemoveFirstById (id : String) (l : List ExpireTimestamp)
    (h : NodupIds l) : NodupIds (slRemoveFirstById id l) :=
  List.Nodup.sublist ((slRemoveFirstById_sublist id l).map
    (fun e => e.id)) h

theorem not_mem_slRemoveFirstById (id : String) (l : List ExpireTimestamp)
    (h : NodupIds l) : ∀ e ∈ slRemoveFirstById id l, e.id ≠ id := by
  induction l with
  | nil =>
    intro e he
    simp [slRemoveFirstById] at he
  | cons x xs ih =>
    simp only [NodupIds, List.map_cons, List.nodup_cons] at h
    by_cases hx : x.id = id
    · simp only [slRemoveFirstById, hx, beq_self_eq_true, if_true]
      intro e he hei
      exact h.1 (by rw [hx, ← hei]; exact List.mem_map_of_mem _ he)
    · have hb : (x.id == id) = false := by simp [hx]
      simp only [slRemoveFirstById, hb, Bool.false_eq_true, if_false]
      intro e he
      rcases List.mem_cons.mp he with h1 | h2
      · rw [h1]; exact hx
      · exact ih h.2 e h2

theorem nodupIds_of_perm {l l' : List ExpireTimestamp} (hp : l.Perm l')
    (h : NodupIds l') : NodupIds l := by
  unfold NodupIds at h ⊢
  exact (List.Perm.nodup_iff (hp.map (fun e => e.id))).mpr h

theorem nodupIds_rememberForExpiry (now : Int) (s : CacheState)
    (id : String) (h : NodupIds s.expireTimestamps) :
    NodupIds (rememberForExpiry now s id).expireTimestamps := by
  unfold rememberForExpiry
  cases hd : s.expiryDuration with
  | none => exact h
  | some d =>
    simp only []
    refine nodupIds_of_perm (slAdd_perm _ _) ?_
    simp only [NodupIds, List.map_cons, List.nodup_cons]
    refine ⟨?_, nodupIds_slRemoveFirstById id _ h⟩
    intro hmem
    obtain ⟨e, he, hei⟩ := List.mem_map.mp hmem
    exact not_mem_slRemoveFirstById id _ h e he hei

theorem countId_perm {l l' : List ExpireTimestamp} (hp : l.Perm l')
    (id : String) : countId l id = countId l' id := by
  unfold countId
  exact (hp.filter (fun e => e.id == id)).length_eq

theorem countId_eq_zero (l : List ExpireTimestamp) (id : String)
    (h : ∀ e ∈ l, e.id ≠ id) : countId l id = 0 := by
  unfold countId
  rw [List.filter_eq_nil_iff.mpr]
  · rfl
  · intro e he
    simp only [ne_eq, beq_iff_eq]
    exact h e he

theorem countId_rememberForExpiry (now : Int) (s : CacheState)
    (id : String) (d : Int) (hd : s.expiryDuration = some d)
    (h : NodupIds s.expireTimestamps) :
    countId (rememberForExpiry now s id).expireTimestamps id = 1 := by
  unfold rememberForExpiry
  rw [hd]
  simp only []
  rw [countId_perm (slAdd_perm _ _) id]
  unfold countId
  rw [List.filter_cons_of_pos (by simp)]
  simp only [List.length_cons]
  have h0 : countId (slRemoveFirstById id s.expireTimestamps) id = 0 :=
    countId_eq_zero _ id (not_mem_slRemoveFirstById id _ h)
  unfold countId at h0
  rw [h0]

theorem mem_rememberForExpiry (now : Int) (s : CacheState) (id : String)
    (d : Int) (hd : s.expiryDuration = some d) :
    (⟨now + d, id⟩ : ExpireTimestamp) ∈
      (rememberForExpiry now s id).expireTimestamps := by
  unfold rememberForExpiry
  rw [hd]
  simp only []
  exact mem_slAdd_self _ _

theorem mem_keys_mapSet (m : List (String × Nat)) (k x : String) (v : Nat)
    (h : x ∈ (mapSet m k v).map (fun p => p.1)) :
    x ∈ m.map (fun p => p.1) ∨ x = k := by
  induction m with
  | nil =>
    simp [mapSet] at h
    exact Or.inr h
  | cons p m ih =>
    by_cases hp : p.1 = k
    · simp only [mapSet, hp, beq_self_eq_true, if_true, List.map_cons] at h
      rcases List.mem_cons.mp h with h1 | h2
      · exact Or.inr h1
      · exact Or.inl (List.mem_cons_of_mem _ h2)
    · have hb : (p.1 == k) = false := by simp [hp]
      simp only [mapSet, hb, Bool.false_eq_true, if_false,
        List.map_cons] at h
      rcases List.mem_cons.mp h with h1 | h2
      · exact Or.inl (h1 ▸ List.mem_cons_self _ _)
      · rcases ih h2 with h3 | h4
        · exact Or.inl (List.mem_cons_of_mem _ h3)
        · exact Or.inr h4

theorem nodupKeys_mapSet (m : List (String × Nat)) (k : String) (v : Nat)
    (h : NodupKeys m) : NodupKeys (mapSet m k v) := by
  induction m with
  | nil => simp [mapSet, NodupKeys]
  | cons p m ih =>
    simp only [NodupKeys, List.map_cons, List.nodup_cons] at h
    by_cases hp : p.1 = k
    · simp only [mapSet, hp, beq_self_eq_true, if_true, NodupKeys,
        List.map_cons, List.nodup_cons]
      exact ⟨hp ▸ h.1, h.2⟩
    · have hb : (p.1 == k) = false := by simp [hp]
      simp only [mapSet, hb, Bool.false_eq_true, if_false, NodupKeys,
        List.map_cons, List.nodup_cons]
      refine ⟨?_, ih h.2⟩
      intro hmem
      rcases mem_keys_mapSet m k p.1 v hmem with h3 | h4
      · exact h.1 h3
      · exact hp h4

theorem mapDelete_sublist (m : List (String × Nat)) (k : String) :
    (mapDelete m k).Sublist m := by
  induction m with
  | nil => exact List.Sublist.refl _
  | cons p m ih =>
    by_cases hp : p.1 = k
    · simp only [mapDelete, hp, beq_self_eq_true, if_true]
      exact ih.trans (List.sublist_cons_self p m)
    · have hb : (p.1 == k) = false := by simp [hp]
      simp only [mapDelete, hb, Bool.false_eq_true, if_false]
      exact ih.cons₂ p

theorem nodupKeys_mapDelete (m : List (String × Nat)) (k : String)
    (h : NodupKeys m) : NodupKeys (mapDelete m k) :=
  List.Nodup.sublist ((mapDelete_sublist m k).map (fun p => p.1)) h

/-- Frame part of `setTimerForNextExpiry`, needing no sortedness: the cache
and configuration are untouched and the index is only permuted. -/
theorem setTimer_frame (now : Int) (s : CacheState) :
    (setTimerForNextExpiry now s).cache = s.cache ∧
    (setTimerForNextExpiry now s).expiryDuration = s.expiryDuration ∧
    (setTimerForNextExpiry now s).expireTimestamps.Perm
      s.expireTimestamps := by
  cases hts : s.expireTimestamps with
  | nil =>
    have he : setTimerForNextExpiry now s = s := by
      unfold setTimerForNextExpiry
      rw [hts]
    rw [he]
    refine ⟨rfl, rfl, ?_⟩
    rw [hts]
  | cons next rest =>
    have he : setTimerForNextExpiry now s =
        { s with expireTimestamps := slAdd next rest,
                 expireTimer := some (max (next.timestamp - now) 100) } := by
      unfold setTimerForNextExpiry
      rw [hts]
    rw [he]
    exact ⟨rfl, rfl, slAdd_perm next rest⟩

theorem storeObject_invariants (now : Int) (s : CacheState) (h : Heap)
    (o : Obj) (hi : NodupIds s.expireTimestamps)
    (hk : NodupKeys s.cache) :
    NodupIds (storeObject now s h o).1.expireTimestamps ∧
    NodupKeys (storeObject now s h o).1.cache := by
  constructor
  · exact nodupIds_rememberForExpiry now _ o._id hi
  · rw [storeObject_cache]
    exact nodupKeys_mapSet s.cache o._id _ hk

/-- Case analysis on what `getObject` does to the instance state. -/
theorem getObject_state_cases (db : String → Except String (Option Obj))
    (now : Int) (s : CacheState) (h : Heap) (id : String) :
    (getObject db now s h id).state = s ∨
    ∃ o, (getObject db now s h id).state = (storeObject now s h o).1 := by
  by_cases hhas : mapHas s.cache id = true
  · left
    unfold getObject
    rw [if_pos hhas]
  · cases hdb : db id with
    | error e =>
      left
      unfold getObject
      rw [if_neg hhas, hdb]
    | ok ret =>
      cases ret with
      | none =>
        left
        unfold getObject
        rw [if_neg hhas, hdb]
      | some o =>
        right
        refine ⟨o, ?_⟩
        unfold getObject
        rw [if_neg hhas, hdb]

/-- Case analysis on what `updateObject` does to the instance state. -/
theorem updateObject_state_cases (now : Int) (s : CacheState) (h : Heap)
    (r : Nat) :
    (updateObject now s h r).1 = s ∨
    ∃ o, (updateObject now s h r).1 = (storeObject now s h o).1 := by
  cases hg : Heap.get h r with
  | none =>
    left
    unfold updateObject
    simp only [hg]
  | some v =>
    right
    refine ⟨v, ?_⟩
    unfold updateObject
    simp only [hg]

/-- Every reachable state has at most one Expiry Index record and at most
one Entry Store record per identifier. -/
theorem reach_invariants (dur : Option Int) (b : Bool) (s : CacheState)
    (hr : Reach dur b s) :
    NodupIds s.expireTimestamps ∧ NodupKeys s.cache := by
  induction hr with
  | init => exact ⟨List.nodup_nil, List.nodup_nil⟩
  | get s0 db now h id _ ih =>
    rcases getObject_state_cases db now s0 h id with hc | ⟨o, hc⟩
    · rw [hc]; exact ih
    · rw [hc]; exact storeObject_invariants now s0 h o ih.1 ih.2
  | update s0 now h r _ ih =>
    rcases updateObject_state_cases now s0 h r with hc | ⟨o, hc⟩
    · rw [hc]; exact ih
    · rw [hc]; exact storeObject_invariants now s0 h o ih.1 ih.2
  | invalidate s0 id _ ih =>
    exact ⟨ih.1, nodupKeys_mapDelete s0.cache id ih.2⟩
  | fire s0 now _ _ ih =>
    cases hts : s0.expireTimestamps with
    | nil =>
      have he : expire now s0 = { s0 with expireTimer := none } := by
        unfold expire
        rw [hts]
      rw [he]
      exact ih
    | cons next rest =>
      have hin : NodupIds rest := by
        have := ih.1
        rw [hts] at this
        exact (List.nodup_cons.mp this).2
      by_cases hdue : next.timestamp - now ≤ 0
      · have he := expire_eq_of_due now s0 next rest hts hdue
        obtain ⟨hc, _, hperm⟩ := setTimer_frame now
          { s0 with cache := mapDelete s0.cache next.id,
                    expireTimer := none, expireTimestamps := rest }
        rw [he]
        refine ⟨nodupIds_of_perm hperm hin, ?_⟩
        rw [hc]
        exact nodupKeys_mapDelete s0.cache next.id ih.2
      · have he := expire_eq_of_not_due now s0 next rest hts hdue
        have hadd : NodupIds (slAdd next rest) := by
          refine nodupIds_of_perm (slAdd_perm _ _) ?_
          rw [← hts]
          exact ih.1
        obtain ⟨hc, _, hperm⟩ := setTimer_frame now
          { s0 with expireTimer := none,
                    expireTimestamps := slAdd next rest }
        rw [he]
        refine ⟨nodupIds_of_perm hperm hadd, ?_⟩
        rw [hc]
        exact ih.2
  | dispose s0 _ _ ih => exact ⟨ih.1, List.nodup_nil⟩

/-- Claim C4: at most one record per identifier. Storing with expiry
enabled removes any existing Expiry Record for the id and inserts exactly
one with timestamp `now + expiryDuration`; `Map.set` overwrites; and the
one-record-per-id property (for both Expiry Index and Entry Store) holds in
every reachable state. -/
theorem at_most_one_record_per_id :
    (∀ now s id d, s.expiryDuration = some d →
      NodupIds s.expireTimestamps →
      countId (rememberForExpiry now s id).expireTimestamps id = 1 ∧
      (⟨now + d, id⟩ : ExpireTimestamp) ∈
        (rememberForExpiry now s id).expireTimestamps ∧
      NodupIds (rememberForExpiry now s id).expireTimestamps) ∧
    (∀ m k v, NodupKeys m →
      mapGet (mapSet m k v) k = some v ∧ NodupKeys (mapSet m k v)) ∧
    (∀ dur b s, Reach dur b s →
      NodupIds s.expireTimestamps ∧ NodupKeys s.cache) := by
  refine ⟨?_, ?_, reach_invariants⟩
  · intro now s id d hd hn
    exact ⟨countId_rememberForExpiry now s id d hd hn,
      mem_rememberForExpiry now s id d hd,
      nodupIds_rememberForExpiry now s id hn⟩
  · intro m k v hk
    exact ⟨mapGet_mapSet_self m k v, nodupKeys_mapSet m k v hk⟩

/-- Witness for `at_most_one_record_per_id` at concrete inputs. -/
theorem at_most_one_record_per_id_witness :
    ((⟨some 10, [], [⟨5, "b"⟩], some 10⟩ : CacheState).expiryDuration =
        some 10 ∧
      NodupIds ([⟨5, "b"⟩] : List ExpireTimestamp) ∧
      NodupKeys [("a", 0)]) ∧
    (countId (rememberForExpiry 0 ⟨some 10, [], [⟨5, "b"⟩], some 10⟩
        "a").expireTimestamps "a" = 1 ∧
      (⟨0 + 10, "a"⟩ : ExpireTimestamp) ∈
        (rememberForExpiry 0 ⟨some 10, [], [⟨5, "b"⟩], some 10⟩
          "a").expireTimestamps ∧
      NodupIds (rememberForExpiry 0 ⟨some 10, [], [⟨5, "b"⟩], some 10⟩
        "a").expireTimestamps) ∧
    (mapGet (mapSet [("a", 0)] "a" 5) "a" = some 5 ∧
      NodupKeys (mapSet [("a", 0)] "a" 5)) ∧
    (NodupIds (mkCache (some 10)).expireTimestamps ∧
      NodupKeys (mkCache (some 10)).cache) :=
  ⟨⟨rfl, by unfold NodupIds; decide, by unfold NodupKeys; decide⟩,
   at_most_one_record_per_id.1 0 ⟨some 10, [], [⟨5, "b"⟩], some 10⟩ "a" 10
     rfl (by unfold NodupIds; decide),
   at_most_one_record_per_id.2.1 [("a", 0)] "a" 5
     (by unfold NodupKeys; decide),
   at_most_one_record_per_id.2.2 (some 10) true (mkCache (some 10))
     Reach.init⟩

/-! Machinery for the timer-iff-pending invariant (C5). -/

/-- Timer/index consistency: a timer is armed iff the index is non-empty. -/
def TimerInv (s : CacheState) : Prop :=
  s.expireTimer.isSome = true ↔ s.expireTimestamps ≠ []

theorem timerInv_rememberForExpiry (now : Int) (s : CacheState)
    (id : String) (h : TimerInv s) :
    TimerInv (rememberForExpiry now s id) := by
  unfold TimerInv rememberForExpiry
  cases hd : s.expiryDuration with
  | none => exact h
  | some d =>
    simp only []
    refine ⟨fun _ => slAdd_ne_nil _ _, fun _ => ?_⟩
    cases s.expireTimer <;> rfl

theorem timerInv_setTimer (now : Int) (s : CacheState)
    (h : s.expireTimestamps = [] → s.expireTimer = none) :
    TimerInv (setTimerForNextExpiry now s) := by
  cases hts : s.expireTimestamps with
  | nil =>
    have he : setTimerForNextExpiry now s = s := by
      unfold setTimerForNextExpiry
      rw [hts]
    rw [he]
    unfold TimerInv
    rw [h hts, hts]
    simp
  | cons next rest =>
    have he : setTimerForNextExpiry now s =
        { s with expireTimestamps := slAdd next rest,
                 expireTimer := some (max (next.timestamp - now) 100) } := by
      unfold setTimerForNextExpiry
      rw [hts]
    rw [he]
    unfold TimerInv
    exact ⟨fun _ => slAdd_ne_nil _ _, fun _ => rfl⟩

theorem timerInv_expire (now : Int) (s : CacheState) :
    TimerInv (expire now s) := by
  cases hts : s.expireTimestamps with
  | nil =>
    have he : expire now s = { s with expireTimer := none } := by
      unfold expire
      rw [hts]
    rw [he]
    unfold TimerInv
    show (none : Option Int).isSome = true ↔ s.expireTimestamps ≠ []
    rw [hts]
    simp
  | cons next rest =>
    by_cases hdue : next.timestamp - now ≤ 0
    · rw [expire_eq_of_due now s next rest hts hdue]
      exact timerInv_setTimer now _ (fun _ => rfl)
    · rw [expire_eq_of_not_due now s next rest hts hdue]
      exact timerInv_setTimer now _ (fun _ => rfl)

theorem armed_imp_pending_remember (now : Int) (s : CacheState)
    (id : String)
    (ih : s.expireTimer.isSome = true → s.expireTimestamps ≠ []) :
    (rememberForExpiry now s id).expireTimer.isSome = true →
    (rememberForExpiry now s id).expireTimestamps ≠ [] := by
  unfold rememberForExpiry
  cases hd : s.expiryDuration with
  | none => exact ih
  | some d =>
    intro _
    exact slAdd_ne_nil _ _

/-- In every dispose-free reachable state, the timer is armed iff the
Expiry Index is non-empty. -/
theorem reach_no_dispose_timerInv (dur : Option Int) (s : CacheState)
    (hr : Reach dur false s) : TimerInv s := by
  induction hr with
  | init =>
    unfold TimerInv mkCache
    simp
  | get s0 db now h id _ ih =>
    rcases getObject_state_cases db now s0 h id with hc | ⟨o, hc⟩
    · rw [hc]
      exact ih
    · rw [hc]
      exact timerInv_rememberForExpiry now _ o._id ih
  | update s0 now h r _ ih =>
    rcases updateObject_state_cases now s0 h r with hc | ⟨o, hc⟩
    · rw [hc]
      exact ih
    · rw [hc]
      exact timerInv_rememberForExpiry now _ o._id ih
  | invalidate s0 id _ ih => exact ih
  | fire s0 now _ _ _ => exact timerInv_expire now s0
  | dispose s0 _ hb _ => exact Bool.noConfusion hb

/-- In every reachable state (dispose allowed), an armed timer implies a
non-empty Expiry Index. -/
theorem reach_armed_imp_pending (dur : Option Int) (b : Bool)
    (s : CacheState) (hr : Reach dur b s) :
    s.expireTimer.isSome = true → s.expireTimestamps ≠ [] := by
  induction hr with
  | init =>
    intro h
    simp [mkCache] at h
  | get s0 db now h id _ ih =>
    rcases getObject_state_cases db now s0 h id with hc | ⟨o, hc⟩
    · rw [hc]
      exact ih
    · rw [hc]
      exact armed_imp_pending_remember now _ o._id ih
  | update s0 now h r _ ih =>
    rcases updateObject_state_cases now s0 h r with hc | ⟨o, hc⟩
    · rw [hc]
      exact ih
    · rw [hc]
      exact armed_imp_pending_remember now _ o._id ih
  | invalidate s0 id _ ih => exact ih
  | fire s0 now _ _ _ => exact (timerInv_expire now s0).mp
  | dispose s0 _ _ _ =>
    intro h
    simp [ObjectCache.dispose] at h

/-- Counterexample to claim C5: after store followed by `dispose`, the
Expiry Index is non-empty yet no timer is armed — `dispose` cancels the
timer but never clears the Expiry Index, and no later step re-arms, so the
claimed iff fails in a reachable state outside any timer-fire gap. -/
theorem timer_iff_counterexample :
    Reach (some 1000) true
      (dispose (updateObject 0 (mkCache (some 1000)) ⟨[⟨"a", 0⟩]⟩ 0).1) ∧
    (dispose (updateObject 0 (mkCache (some 1000)) ⟨[⟨"a", 0⟩]⟩
      0).1).expireTimer = none ∧
    (dispose (updateObject 0 (mkCache (some 1000)) ⟨[⟨"a", 0⟩]⟩
      0).1).expireTimestamps = [⟨1000, "a"⟩] :=
  ⟨Reach.dispose _ (Reach.update _ 0 ⟨[⟨"a", 0⟩]⟩ 0 Reach.init) rfl,
   by decide, by decide⟩

/-- Claim C5 as amended: in every state reachable without `dispose`, a
timer is armed iff the Expiry Index is non-empty; once `dispose` is
allowed, only the forward direction survives — an armed timer still implies
a non-empty index, but `dispose` leaves a non-empty index with no timer. -/
theorem timer_armed_iff_pending (dur : Option Int) (s : CacheState) :
    (Reach dur false s →
      (s.expireTimer.isSome = true ↔ s.expireTimestamps ≠ [])) ∧
    (∀ b, Reach dur b s →
      s.expireTimer.isSome = true → s.expireTimestamps ≠ []) :=
  ⟨fun hr => reach_no_dispose_timerInv dur s hr,
   fun b hr => reach_armed_imp_pending dur b s hr⟩

/-- Witness for `timer_armed_iff_pending` at the initial state. -/
theorem timer_armed_iff_pending_witness :
    Reach (some 1000) false (mkCache (some 1000)) ∧
    ((Reach (some 1000) false (mkCache (some 1000)) →
        ((mkCache (some 1000)).expireTimer.isSome = true ↔
          (mkCache (some 1000)).expireTimestamps ≠ [])) ∧
      (∀ b, Reach (some 1000) b (mkCache (some 1000)) →
        (mkCache (some 1000)).expireTimer.isSome = true →
        (mkCache (some 1000)).expireTimestamps ≠ [])) :=
  ⟨Reach.init, timer_armed_iff_pending (some 1000) (mkCache (some 1000))⟩

end ObjectCache
